import Mathlib

/-!
Verification of the particle-emitter core: a shallow embedding of the object
pool (src/utils/Pool.ts), the 2D vector algebra (Vector), the particle
integration, lifecycle, collision and density code (Particle, Utility) and
the emitter spawning logic (Emitter), together with theorems checking the
specified properties against the embedded code.

Numeric model: JS double arithmetic is embedded as exact rational
arithmetic.  Every concrete input evaluated below is exactly representable
and exactly computed in binary floating point, so the two models agree at
those points.  The bootstrap file runs globalThis.__DEBUG__ = true at
startup; the embedding mirrors that flag.
-/

/-- The global __DEBUG__ flag; the bootstrap file sets it to true. -/
def DEBUG : Bool := true

/-- A Vector instance: two finite numbers.  The x and y setters coerce
non-number and NaN input to 0; over the rational model every value is a
finite number, so the setters are the identity. -/
structure Vec where
  x : ℚ
  y : ℚ
deriving Repr, DecidableEq

/-- JS property lookup v[i] on a Vector instance.  The class declares the
field values, getters x and y, and a Symbol.iterator field, but no numeric
index properties, so v[0] and v[1] evaluate to undefined. -/
def Vec.index (_v : Vec) (_i : Nat) : Option ℚ := none

/-- JS property lookup v.length on a Vector instance: undefined. -/
def Vec.lengthProp (_v : Vec) : Option Nat := none

/-- One argument of a variadic Vector method: a Vector instance, a finite
number, or an array of finite numbers.  (Any other JS value fails every
type test of processArgs and lands in its fallback case; none of the
specified behaviour needs such values.) -/
inductive VArg where
  | vec (v : Vec)
  | num (q : ℚ)
  | arr (l : List ℚ)
deriving Repr, DecidableEq

/-- Vector.processArgs.  The source branches in order: zero arguments;
first argument a Vector or a numeric array; exactly two numbers; exactly
one number; otherwise the fallback, which throws InvalidArgumentError when
__DEBUG__ is set and yields [0, 0] otherwise.  The none result models the
thrown error.

In the Vector-or-array branch the source reads x[0], x.length and x[1].
A Vector instance has none of these properties (Vec.index, Vec.lengthProp),
so valX is undefined-defaulted to 0.0, the length comparison is false, and
the branch yields (0, 0) whatever components the vector holds.  For a
numeric array, a missing element defaults to 0.0 through the JS truthiness
default, which over finite numbers maps 0 to 0 and keeps everything else. -/
def processArgs : List VArg → Option (ℚ × ℚ)
  | [] => some (0, 0)
  | VArg.vec v :: _ =>
      let valX := (Vec.index v 0).getD 0
      let lenGtOne := match Vec.lengthProp v with
        | some n => decide (n > 1)
        | none => false
      let valY := if lenGtOne then (Vec.index v 1).getD 0 else valX
      some (valX, valY)
  | VArg.arr l :: _ =>
      let valX := l.getD 0 0
      let valY := if l.length > 1 then l.getD 1 0 else valX
      some (valX, valY)
  | [VArg.num a, VArg.num b] => some (a, b)
  | [VArg.num a] => some (a, a)
  | _ => if DEBUG then none else some (0, 0)

/-- Vector#set(x, y): processArgs on two finite numbers returns them
unchanged, and the setters keep finite values. -/
def Vec.set (_v : Vec) (a b : ℚ) : Vec := ⟨a, b⟩

/-- Vector#clone(): new Vector(this.x, this.y). -/
def Vec.clone (v : Vec) : Vec := ⟨v.x, v.y⟩

/-- Vector#copy(arg) with a Vector argument: this.set(arg.x, arg.y).
Unlike the variadic ops this reads the components directly, so it works. -/
def Vec.copyFrom (v w : Vec) : Vec := v.set w.x w.y

/-- Vector#add. -/
def Vec.add (v : Vec) (args : List VArg) : Option Vec :=
  (processArgs args).map fun d => ⟨v.x + d.1, v.y + d.2⟩

/-- Vector#subtract. -/
def Vec.subtract (v : Vec) (args : List VArg) : Option Vec :=
  (processArgs args).map fun d => ⟨v.x - d.1, v.y - d.2⟩

/-- Vector#multiply. -/
def Vec.multiply (v : Vec) (args : List VArg) : Option Vec :=
  (processArgs args).map fun d => ⟨v.x * d.1, v.y * d.2⟩

/-- Vector#divide: a component whose divisor is zero is skipped. -/
def Vec.divide (v : Vec) (args : List VArg) : Option Vec :=
  (processArgs args).map fun d =>
    ⟨if d.1 ≠ 0 then v.x / d.1 else v.x,
     if d.2 ≠ 0 then v.y / d.2 else v.y⟩

/-- Truncation toward zero, the rounding used by the JS remainder
operator. -/
def ratTrunc (q : ℚ) : ℤ := if q < 0 then ⌈q⌉ else ⌊q⌋

/-- The JS % operator on finite numbers with a non-zero divisor. -/
def jsRem (n d : ℚ) : ℚ := n - d * (ratTrunc (n / d) : ℚ)

/-- Vector#remainder via #calculateRemainder: a component whose divisor is
zero is skipped. -/
def Vec.remainder (v : Vec) (args : List VArg) : Option Vec :=
  (processArgs args).map fun d =>
    ⟨if d.1 ≠ 0 then jsRem v.x d.1 else v.x,
     if d.2 ≠ 0 then jsRem v.y d.2 else v.y⟩

/-- Vector#magnitudeSq. -/
def Vec.magnitudeSq (v : Vec) : ℚ := v.x * v.x + v.y * v.y

/-- Model of Math.sqrt; it agrees with the source at every perfect-square
rational, which covers every point where this development evaluates it. -/
def ratSqrt (q : ℚ) : ℚ := (Nat.sqrt q.num.toNat : ℚ) / (Nat.sqrt q.den : ℚ)

/-- Vector#magnitude. -/
def Vec.magnitude (v : Vec) : ℚ := ratSqrt v.magnitudeSq

/-- Vector#normalize: this.multiply(1 / mag) when the magnitude is
non-zero; multiply with a single scalar broadcasts it to both
components. -/
def Vec.normalize (v : Vec) : Vec :=
  let mag := v.magnitude
  if mag ≠ 0 then ⟨v.x * (1 / mag), v.y * (1 / mag)⟩ else v

/-- Vector.create and the Vector constructor: processArgs then the
setters. -/
def Vec.create (args : List VArg) : Option Vec :=
  (processArgs args).map fun d => ⟨d.1, d.2⟩

/-- Static Vector.divide(v1, ...args): builds Vector.create(v1) — which
pushes the Vector argument through processArgs — and divides it. -/
def Vec.staticDivide (v1 : Vec) (args : List VArg) : Option Vec := do
  let target ← Vec.create [VArg.vec v1]
  target.divide args

/-- Vector.create applied to the raw argument array of a variadic call
(the source of Vector#dot passes args, the array itself, as one value).
processArgs then sees a single array: it is never a Vector, and it passes
the isArray test exactly when every element is a number; otherwise the
fallback applies, which throws under __DEBUG__. -/
def Vec.createFromArgsArray (args : List VArg) : Option Vec :=
  match args.mapM (fun a => match a with | VArg.num q => some q | _ => none) with
  | some l =>
      let valX := l.getD 0 0
      let valY := if l.length > 1 then l.getD 1 0 else valX
      some ⟨valX, valY⟩
  | none => if DEBUG then none else some ⟨0, 0⟩

/-- Vector#dot: builds Vector.create(args) from the raw argument array and
returns the componentwise product sum. -/
def Vec.dot (v : Vec) (args : List VArg) : Option ℚ := do
  let w ← Vec.createFromArgsArray args
  return v.x * w.x + v.y * w.y

/-- Pool state (src/utils/Pool.ts).  Pooled objects are identified by
creation order through the factory; nextId is the identity the next
createObject() call returns.  JS arrays are lists in push order. -/
structure Pool where
  allObjects : List Nat
  activeObjects : List Nat
  inactiveObjects : List Nat
  maxSize : Nat
  nextId : Nat
deriving Repr, DecidableEq

/-- The loop of Pool#init: count freshly created objects pushed onto
allObjects and inactiveObjects. -/
def Pool.initLoop : Nat → Pool → Pool
  | 0, p => p
  | n + 1, p =>
      let newObject := p.nextId
      Pool.initLoop n
        { p with
          allObjects := p.allObjects ++ [newObject]
          inactiveObjects := p.inactiveObjects ++ [newObject]
          nextId := newObject + 1 }

/-- new Pool(ObjectClass, maxSize, options): empty partitions, then init
pre-fills maxSize objects. -/
def Pool.make (maxSize : Nat) : Pool :=
  Pool.initLoop maxSize
    { allObjects := [], activeObjects := [], inactiveObjects := []
      maxSize := maxSize, nextId := 0 }

/-- Pool#acquire: pop the last inactive object if any; else create a fresh
object when allObjects is below maxSize; else return null.  A successful
acquire pushes the object onto activeObjects. -/
def Pool.acquire (p : Pool) : Option Nat × Pool :=
  match p.inactiveObjects.getLast? with
  | some object =>
      let p1 := { p with inactiveObjects := p.inactiveObjects.dropLast }
      (some object, { p1 with activeObjects := p1.activeObjects ++ [object] })
  | none =>
      if p.allObjects.length < p.maxSize then
        let object := p.nextId
        let p1 := { p with allObjects := p.allObjects ++ [object], nextId := object + 1 }
        (some object, { p1 with activeObjects := p1.activeObjects ++ [object] })
      else
        (none, p)

/-- Pool#release: splice the object out of activeObjects at its first
index, then push it onto inactiveObjects unless it is already there;
releasing an object that is not active only logs a warning. -/
def Pool.release (p : Pool) (object : Nat) : Pool :=
  if object ∈ p.activeObjects then
    let p1 := { p with activeObjects := p.activeObjects.erase object }
    if object ∈ p1.inactiveObjects then p1
    else { p1 with inactiveObjects := p1.inactiveObjects ++ [object] }
  else p

/-- One externally visible pool mutation. -/
inductive PoolOp where
  | acq
  | rel (object : Nat)

/-- Apply one operation (the result of acquire is dropped here; the claims
about results are stated through Pool.acquire directly). -/
def Pool.step (p : Pool) : PoolOp → Pool
  | PoolOp.acq => (p.acquire).2
  | PoolOp.rel o => p.release o

/-- Run a sequence of operations from a given state. -/
def Pool.runOps (p : Pool) (ops : List PoolOp) : Pool := ops.foldl Pool.step p

/-- State after n sequential acquire() calls. -/
def Pool.acquireN (p : Pool) : Nat → Pool
  | 0 => p
  | n + 1 => ((Pool.acquireN p n).acquire).2

/-- The particle option record fields the core reads and writes.  mass,
gravity, lifeRange.max etc. are plain numbers here; the external options
collaborator owns their construction. -/
structure POptions where
  isStatic : Bool
  mass : ℚ
  gravity : Vec
  lifespan : ℚ
  lifeRangeMax : ℚ
  alpha : ℚ
  density : ℚ
deriving Repr, DecidableEq

/-- One Particle.  hasCallback models whether the release callback
reference is set; releaseCount observes how many times the callback has
been invoked (each invocation hands the particle back to the pool). -/
structure Particle where
  position : Vec
  prevPosition : Vec
  velocity : Vec
  acceleration : Vec
  active : Bool
  hasCallback : Bool
  releaseCount : Nat
  options : POptions
deriving Repr, DecidableEq

/-- Particle#destroy: clear active, invoke the release callback if set,
then clear the callback reference so it can never fire twice. -/
def Particle.destroy (p : Particle) : Particle :=
  let p1 := { p with active := false }
  if p1.hasCallback then
    { p1 with releaseCount := p1.releaseCount + 1, hasCallback := false }
  else p1

/-- Particle#applyForce: no-op when static, else
acceleration.add(Vector.divide(force, mass)). -/
def Particle.applyForce (p : Particle) (force : Vec) : Option Particle :=
  if p.options.isStatic then some p
  else do
    let f ← Vec.staticDivide force [VArg.num p.options.mass]
    let acc ← p.acceleration.add [VArg.vec f]
    return { p with acceleration := acc }

/-- Utility.eulerUpdate(p, dt): clone old and new positions, advance the
new position by the velocity, apply gravity as a force, advance the
velocity by acceleration times dt squared, zero the acceleration, and
return both positions (the caller commits them). -/
def eulerUpdate (p : Particle) (dt : ℚ) : Option (Vec × Vec × Particle) := do
  let oldPosition := p.position.clone
  let newPosition := p.position.clone
  let newPosition ← newPosition.add [VArg.vec p.velocity]
  let p ← p.applyForce p.options.gravity
  let acc ← p.acceleration.multiply [VArg.num (dt * dt)]
  let vel ← p.velocity.add [VArg.vec acc]
  let p := { p with velocity := vel, acceleration := acc }
  let acc ← p.acceleration.multiply [VArg.num 0]
  let p := { p with acceleration := acc }
  return (newPosition, oldPosition, p)

/-- Particle#update: run the Euler step, commit prevPosition and position,
decrement lifespan, recompute alpha, and destroy once lifespan is
negative.  The method never tests active or isStatic itself. -/
def Particle.update (p : Particle) (dt : ℚ) : Option Particle := do
  let (newPosition, oldPosition, p1) ← eulerUpdate p dt
  let p2 := { p1 with prevPosition := oldPosition, position := newPosition }
  let lifespan := p2.options.lifespan - dt
  let alpha := lifespan / (2 * p2.options.lifeRangeMax)
  let p3 := { p2 with options := { p2.options with lifespan := lifespan, alpha := alpha } }
  return if lifespan < 0 then p3.destroy else p3

/-- n sequential Particle#update calls. -/
def Particle.updateN (p : Particle) (dt : ℚ) : Nat → Option Particle
  | 0 => some p
  | n + 1 => (Particle.updateN p dt n).bind (fun q => q.update dt)

/-- The net effect of one Particle#update, proved equal to the embedded
update in update_eq_model below: the Vector-argument arithmetic adds
(0, 0), so position and velocity keep their values, acceleration ends
zeroed, and only the lifecycle fields advance. -/
def updateModel (p : Particle) (dt : ℚ) : Particle :=
  let lifespan := p.options.lifespan - dt
  let p3 :=
    { p with
      prevPosition := p.position.clone
      position := p.position.clone
      acceleration := ⟨0, 0⟩
      options := { p.options with
                   lifespan := lifespan
                   alpha := lifespan / (2 * p.options.lifeRangeMax) } }
  if lifespan < 0 then p3.destroy else p3

/-- n sequential steps of the net-effect model. -/
def updateModelN (p : Particle) (dt : ℚ) : Nat → Particle
  | 0 => p
  | n + 1 => updateModel (updateModelN p dt n) dt

/-- The four vectors Particle#checkCollision reads and writes, plus the
module-level shared scratch vector (zeroVector); every run starts by
overwriting the scratch through copy, so it is threaded explicitly. -/
structure CollState where
  selfPosition : Vec
  selfVelocity : Vec
  otherPosition : Vec
  otherVelocity : Vec
  temp : Vec
deriving Repr, DecidableEq

/-- Particle#checkCollision.  The collisionNormal, correctionVector, vRel
and impulse locals all alias the one scratch vector, which the embedding
reproduces by rebinding z.  Except.error carries the object state at the
point where an InvalidArgumentError escapes: the in-place mutations made
before the throw remain visible to the caller.  randomDirection stands for
the value Vector.randomDirection() would return in the distance-zero
branch. -/
def checkCollision (selfRadius otherRadius selfMass otherMass : ℚ)
    (randomDirection : Vec) (s : CollState) : Except CollState CollState :=
  let z := s.temp.copyFrom s.otherPosition
  match z.subtract [VArg.vec s.selfPosition] with
  | none => Except.error { s with temp := z }
  | some z =>
    let sumRadius := selfRadius + otherRadius
    let distance := z.magnitude
    if distance < sumRadius then
      let overlap := sumRadius - distance
      if distance = 0 then
        match randomDirection.multiply [VArg.num (overlap / 2)] with
        | none => Except.error { s with temp := z }
        | some rd =>
          match s.selfPosition.add [VArg.vec rd],
                s.otherPosition.subtract [VArg.vec rd] with
          | some sp, some op =>
              Except.ok { s with selfPosition := sp, otherPosition := op, temp := z }
          | _, _ => Except.error { s with temp := z }
      else
        let z := z.normalize
        match z.multiply [VArg.num (overlap / 2)] with
        | none => Except.error { s with temp := z }
        | some z =>
          match s.selfPosition.add [VArg.vec z],
                s.otherPosition.subtract [VArg.vec z] with
          | some sp, some op =>
            let z := z.copyFrom s.selfVelocity
            match z.subtract [VArg.vec s.otherVelocity] with
            | none => Except.error { s with selfPosition := sp, otherPosition := op, temp := z }
            | some z =>
              match z.dot [VArg.vec z] with
              | none => Except.error { s with selfPosition := sp, otherPosition := op, temp := z }
              | some speed =>
                if speed ≠ 0 ∧ speed < 0 then
                  let mSum := selfMass + otherMass
                  let mThisRatio := 2 * otherMass / mSum
                  let mOtherRatio := 2 * selfMass / mSum
                  match z.multiply [VArg.num speed] with
                  | none => Except.error { s with selfPosition := sp, otherPosition := op, temp := z }
                  | some z =>
                    match (z.copyFrom z).multiply [VArg.num mThisRatio] with
                    | none => Except.error { s with selfPosition := sp, otherPosition := op, temp := z }
                    | some z =>
                      match s.selfVelocity.subtract [VArg.vec z] with
                      | none => Except.error { s with selfPosition := sp, otherPosition := op, temp := z }
                      | some sv =>
                        match z.multiply [VArg.num mOtherRatio] with
                        | none => Except.error
                            { s with selfPosition := sp, otherPosition := op,
                                     selfVelocity := sv, temp := z }
                        | some z =>
                          match s.otherVelocity.add [VArg.vec z] with
                          | none => Except.error
                              { s with selfPosition := sp, otherPosition := op,
                                       selfVelocity := sv, temp := z }
                          | some ov =>
                            Except.ok
                              { s with selfPosition := sp, otherPosition := op,
                                       selfVelocity := sv, otherVelocity := ov, temp := z }
                else
                  Except.ok { s with selfPosition := sp, otherPosition := op, temp := z }
          | _, _ => Except.error { s with temp := z }
    else
      Except.ok { s with temp := z }

/-- Math.PI: the IEEE double closest to pi, an exact rational. -/
def jsPI : ℚ := 884279719003555 / 281474976710656

/-- Particle.setSmoothingRadius(h): precompute h squared and the Poly6
normalization constant (4 / Math.PI) / h^8; returned as (h2, norm). -/
def setSmoothingRadius (h : ℚ) : ℚ × ℚ :=
  let h2 := h * h
  let h4 := h2 * h2
  let h8 := h4 * h4
  (h2, (4 / jsPI) / h8)

/-- Particle.#poly6KernelSq(r2) with the precomputed (h2, norm). -/
def poly6KernelSq (c : ℚ × ℚ) (r2 : ℚ) : ℚ :=
  if r2 > c.1 then 0
  else
    let diff := c.1 - r2
    c.2 * diff * diff * diff

/-- The squared distance computed inside calculateDensities:
tempVector.copy(p1.position).subtract(p2.position).magnitudeSq().
The subtract receives a Vector argument, so it subtracts (0, 0); the none
branch of the Vector-argument subtract is unreachable. -/
def tempDistanceSq (p1 p2 : Vec) : ℚ :=
  match (Vec.copyFrom ⟨0, 0⟩ p1).subtract [VArg.vec p2] with
  | some d => d.magnitudeSq
  | none => 0

/-- Particle.calculateDensities(particles, smoothingRadius): every
particle's density starts from its self-contribution mass * kernel(0) and
accumulates the other particles' contributions; p1 === p2 is reference
equality, which for the distinct pooled objects of a particle array is
position-in-array equality, modelled by index. -/
def calculateDensities (ps : List Particle) (smoothingRadius : ℚ) : List Particle :=
  let c := setSmoothingRadius smoothingRadius
  let kernel0 := poly6KernelSq c 0
  ps.enum.map fun (i, p1) =>
    let selfDensity := p1.options.mass * kernel0
    let density := ps.enum.foldl
      (fun acc (j, p2) =>
        if i = j then acc
        else acc + p2.options.mass * poly6KernelSq c (tempDistanceSq p1.position p2.position))
      selfDensity
    { p1 with options := { p1.options with density := density } }

/-- Heap of Vector objects, for the aliasing behaviour of Particle#init:
an address is an index into the cell list. -/
structure VecStore where
  cells : List Vec
deriving Repr, DecidableEq

/-- Read the vector at an address. -/
def VecStore.read (s : VecStore) (r : Nat) : Vec := s.cells.getD r ⟨0, 0⟩

/-- Overwrite the vector at an address in place. -/
def VecStore.write (s : VecStore) (r : Nat) (v : Vec) : VecStore :=
  ⟨s.cells.set r v⟩

/-- Allocate a new vector object, returning its address. -/
def VecStore.alloc (s : VecStore) (v : Vec) : VecStore × Nat :=
  (⟨s.cells ++ [v]⟩, s.cells.length)

/-- A Particle's vector-valued fields as heap references. -/
structure HParticle where
  positionRef : Nat
  prevPositionRef : Nat
  velocityRef : Nat
  active : Bool
deriving Repr, DecidableEq

/-- Particle#init(callback, position, velocity): this.position = position
stores the argument by reference; this.prevPosition = position.clone()
allocates a fresh copy; this.velocity = velocity stores by reference. -/
def HParticle.init (st : VecStore) (p : HParticle) (positionRef velocityRef : Nat) :
    VecStore × HParticle :=
  let (st1, prevRef) := st.alloc (st.read positionRef).clone
  (st1, { p with active := true, positionRef := positionRef
                 prevPositionRef := prevRef, velocityRef := velocityRef })

/-- The Emitter fields addParticles reads: its position vector (one object
allocated at construction) and the option-derived spawn velocity. -/
structure HEmitter where
  positionRef : Nat
  vx : ℚ
  vy : ℚ
deriving Repr, DecidableEq

/-- Emitter#addParticles for a successfully acquired particle p: build a
fresh velocity vector from the options and call
p.init(this.release, this.position, velocity), passing the emitter's own
position object. -/
def HEmitter.addParticles (st : VecStore) (e : HEmitter) (p : HParticle) :
    VecStore × HParticle :=
  let (st1, velocityRef) := st.alloc ⟨e.vx, e.vy⟩
  HParticle.init st1 p e.positionRef velocityRef

/-- The invariant every pool reachable from construction satisfies: no
partition holds duplicates, active and inactive are disjoint and together
exactly cover allObjects, the pool is exactly at capacity (init pre-fills
maxSize objects and acquire only creates below it), and every held object
was produced by the factory counter. -/
def PoolInv (p : Pool) : Prop :=
  p.allObjects.Nodup ∧
  p.activeObjects.Nodup ∧
  p.inactiveObjects.Nodup ∧
  (∀ x, ¬(x ∈ p.activeObjects ∧ x ∈ p.inactiveObjects)) ∧
  (∀ x, x ∈ p.allObjects ↔ x ∈ p.activeObjects ∨ x ∈ p.inactiveObjects) ∧
  p.allObjects.length = p.maxSize ∧
  (∀ x ∈ p.allObjects, x < p.nextId)

/-- An active particle with one second of lifespan left and its release
callback set, as in the lifecycle property. -/
def c6Particle : Particle :=
  { position := ⟨0, 0⟩, prevPosition := ⟨0, 0⟩, velocity := ⟨0, -1⟩
    acceleration := ⟨0, 0⟩, active := true, hasCallback := true, releaseCount := 0
    options := { isStatic := false, mass := 1, gravity := ⟨0, 1/10000⟩, lifespan := 1
                 lifeRangeMax := 5, alpha := 1, density := 0 } }

/-- A non-static live particle moving right with unit velocity under unit
gravity, for evaluating the Euler step. -/
def eulerParticle : Particle :=
  { position := ⟨0, 0⟩, prevPosition := ⟨0, 0⟩, velocity := ⟨1, 0⟩
    acceleration := ⟨0, 0⟩, active := true, hasCallback := true, releaseCount := 0
    options := { isStatic := false, mass := 1, gravity := ⟨0, 1⟩, lifespan := 10
                 lifeRangeMax := 5, alpha := 1, density := 0 } }

/-- Two overlapping equal-mass particles approaching head-on along the x
axis: distance 1, radius 1 each, velocities (1,0) and (-1,0). -/
def collisionState : CollState :=
  { selfPosition := ⟨0, 0⟩, selfVelocity := ⟨1, 0⟩
    otherPosition := ⟨1, 0⟩, otherVelocity := ⟨-1, 0⟩, temp := ⟨0, 0⟩ }

/-- A one-cell heap holding the emitter position vector. -/
def wStore : VecStore := ⟨[⟨5, 5⟩]⟩

/-- An emitter whose position object lives at address 0. -/
def wEmitter : HEmitter := ⟨0, 1, 2⟩

/-- A fresh pooled particle before init. -/
def wParticle : HParticle := ⟨0, 0, 0, false⟩

theorem Pool.initLoop_spec (n : Nat) (p : Pool) :
    Pool.initLoop n p =
      { p with allObjects := p.allObjects ++ List.range' p.nextId n
               inactiveObjects := p.inactiveObjects ++ List.range' p.nextId n
               nextId := p.nextId + n } := by
  induction n generalizing p with
  | zero => simp [Pool.initLoop]
  | succ n ih =>
      rw [Pool.initLoop, ih]
      simp [List.range'_succ, List.append_assoc]
      omega

theorem Pool.make_spec (N : Nat) :
    Pool.make N = ⟨List.range N, [], List.range N, N, N⟩ := by
  rw [Pool.make, Pool.initLoop_spec]
  simp [List.range_eq_range']

theorem Pool.acquireN_make (N k : Nat) (hk : k ≤ N) :
    Pool.acquireN (Pool.make N) k =
      ⟨List.range N, (List.range' (N - k) k).reverse, List.range (N - k), N, N⟩ := by
  induction k with
  | zero => simp [Pool.acquireN, Pool.make_spec]
  | succ k ih =>
      have hk' : k ≤ N := Nat.le_of_succ_le hk
      have hm : N - k = (N - (k + 1)) + 1 := by omega
      rw [Pool.acquireN, ih hk', Pool.acquire]
      simp only [hm, List.range_succ, List.getLast?_concat, List.dropLast_concat]
      have hr : List.range' (N - (k + 1)) (k + 1) =
          (N - (k + 1)) :: List.range' (N - k) k := by
        rw [List.range'_succ, hm]
      rw [hr]
      simp
      omega

theorem poolInv_make (N : Nat) : PoolInv (Pool.make N) := by
  rw [Pool.make_spec]
  refine ⟨List.nodup_range _, List.nodup_nil, List.nodup_range _, ?_, ?_, ?_, ?_⟩
  · intro x hx
    exact (List.not_mem_nil x) hx.1
  · intro x
    simp
  · simp
  · intro x hx
    simpa using hx

theorem poolInv_acquire (p : Pool) (h : PoolInv p) : PoolInv (p.acquire).2 := by
  obtain ⟨hAll, hAct, hIn, hDisj, hUnion, hFull, hFresh⟩ := h
  rw [Pool.acquire]
  cases hlast : p.inactiveObjects.getLast? with
  | none =>
      have hempty : p.inactiveObjects = [] := by
        cases hi : p.inactiveObjects with
        | nil => rfl
        | cons a l => rw [hi] at hlast; simp [List.getLast?_concat] at hlast
      simp only [hempty]
      have : ¬ p.allObjects.length < p.maxSize := by omega
      simp only [this, if_false]
      exact ⟨hAll, hAct, hIn, hDisj, hUnion, hFull, hFresh⟩
  | some obj =>
      have hne : p.inactiveObjects ≠ [] := by
        intro h0; rw [h0] at hlast; simp at hlast
      have hobj : p.inactiveObjects.getLast hne = obj := by
        have := List.getLast?_eq_getLast p.inactiveObjects hne
        rw [hlast] at this; exact (Option.some.inj this).symm
      have hsplit : p.inactiveObjects.dropLast ++ [obj] = p.inactiveObjects := by
        rw [← hobj]; exact List.dropLast_append_getLast hne
      have hInD : (p.inactiveObjects.dropLast ++ [obj]).Nodup := by rw [hsplit]; exact hIn
      have hobjD : obj ∉ p.inactiveObjects.dropLast := by
        rw [List.nodup_append] at hInD
        intro hmem
        exact hInD.2.2 hmem (List.mem_singleton_self obj)
      have hobjIn : obj ∈ p.inactiveObjects := by
        rw [← hsplit]; simp
      have hobjAct : obj ∉ p.activeObjects := fun hmem => hDisj obj ⟨hmem, hobjIn⟩
      simp only
      refine ⟨hAll, ?_, ?_, ?_, ?_, hFull, hFresh⟩
      · rw [List.nodup_append]
        exact ⟨hAct, List.nodup_singleton obj, by
          intro a ha hb
          rw [List.mem_singleton] at hb
          subst hb
          exact hobjAct ha⟩
      · exact List.Nodup.of_append_left hInD
      · intro x ⟨hx1, hx2⟩
        rw [List.mem_append, List.mem_singleton] at hx1
        rcases hx1 with hx1 | rfl
        · exact hDisj x ⟨hx1, by rw [← hsplit]; exact List.mem_append_left _ hx2⟩
        · exact hobjD hx2
      · intro x
        rw [hUnion x, ← hsplit]
        simp
        tauto

theorem poolInv_release (p : Pool) (obj : Nat) (h : PoolInv p) : PoolInv (p.release obj) := by
  obtain ⟨hAll, hAct, hIn, hDisj, hUnion, hFull, hFresh⟩ := h
  rw [Pool.release]
  by_cases hmem : obj ∈ p.activeObjects
  · have hobjIn : obj ∉ p.inactiveObjects := fun hx => hDisj obj ⟨hmem, hx⟩
    simp only [hmem, if_true, hobjIn, if_false]
    refine ⟨hAll, hAct.erase obj, ?_, ?_, ?_, hFull, hFresh⟩
    · rw [List.nodup_append]
      exact ⟨hIn, List.nodup_singleton obj, by
        intro a ha hb
        rw [List.mem_singleton] at hb
        subst hb
        exact hobjIn ha⟩
    · intro x ⟨hx1, hx2⟩
      rw [hAct.mem_erase_iff] at hx1
      rw [List.mem_append, List.mem_singleton] at hx2
      rcases hx2 with hx2 | rfl
      · exact hDisj x ⟨hx1.2, hx2⟩
      · exact hx1.1 rfl
    · intro x
      rw [hUnion x, hAct.mem_erase_iff]
      simp only [List.mem_append, List.mem_singleton]
      by_cases hxo : x = obj
      · subst hxo
        constructor
        · intro _; right; right; rfl
        · intro _; exact Or.inl hmem
      · constructor
        · intro hx
          rcases hx with hx | hx
          · left; exact ⟨hxo, hx⟩
          · right; left; exact hx
        · intro hx
          rcases hx with hx | hx | rfl
          · left; exact hx.2
          · right; exact hx
          · exact absurd rfl hxo
  · simp only [hmem, if_false]
    exact ⟨hAll, hAct, hIn, hDisj, hUnion, hFull, hFresh⟩

theorem poolInv_step (p : Pool) (op : PoolOp) (h : PoolInv p) : PoolInv (p.step op) := by
  cases op with
  | acq => exact poolInv_acquire p h
  | rel o => exact poolInv_release p o h

theorem poolInv_runOps (p : Pool) (ops : List PoolOp) (h : PoolInv p) :
    PoolInv (p.runOps ops) := by
  induction ops generalizing p with
  | nil => exact h
  | cons op ops ih => exact ih _ (poolInv_step p op h)

theorem step_maxSize (p : Pool) (op : PoolOp) : (p.step op).maxSize = p.maxSize := by
  cases op with
  | acq =>
      rw [Pool.step, Pool.acquire]
      cases p.inactiveObjects.getLast? with
      | none =>
          by_cases hlt : p.allObjects.length < p.maxSize
          · simp [hlt]
          · simp [hlt]
      | some obj => simp
  | rel o =>
      rw [Pool.step, Pool.release]
      by_cases hmem : o ∈ p.activeObjects
      · by_cases hio : o ∈ p.inactiveObjects
        · simp [hmem, hio]
        · simp [hmem, hio]
      · simp [hmem]

theorem runOps_maxSize (p : Pool) (ops : List PoolOp) :
    (p.runOps ops).maxSize = p.maxSize := by
  induction ops generalizing p with
  | nil => rfl
  | cons op ops ih =>
      rw [Pool.runOps, List.foldl_cons, ← Pool.runOps, ih, step_maxSize]

/-- C1: for every capacity N, the first N sequential acquire() calls on a
fresh Pool each return a pooled object, the (N+1)th returns null, and the
number of objects the pool holds — allObjects, which active and inactive
partition — is N after construction and after every one of those calls. -/
theorem c1_pool_exhaustion (N : Nat) :
    (∀ k, k < N → ∃ o, (Pool.acquireN (Pool.make N) k).acquire.1 = some o ∧
        o ∈ (Pool.acquireN (Pool.make N) k).allObjects) ∧
    ((Pool.acquireN (Pool.make N) N).acquire.1 = none) ∧
    (∀ j, j ≤ N + 1 → (Pool.acquireN (Pool.make N) j).allObjects.length = N ∧
        (Pool.acquireN (Pool.make N) j).activeObjects.length +
          (Pool.acquireN (Pool.make N) j).inactiveObjects.length = N) := by
  refine ⟨?_, ?_, ?_⟩
  · intro k hk
    rw [Pool.acquireN_make N k (Nat.le_of_lt hk), Pool.acquire]
    have hm : N - k = (N - (k + 1)) + 1 := by omega
    simp only [hm, List.range_succ, List.getLast?_concat]
    refine ⟨N - (k + 1), rfl, ?_⟩
    simp
    omega
  · rw [Pool.acquireN_make N N le_rfl, Pool.acquire]
    simp
  · intro j hj
    rcases Nat.lt_or_ge j (N + 1) with hlt | hge
    · rw [Pool.acquireN_make N j (by omega)]
      refine ⟨by simp, ?_⟩
      simp
      omega
    · have hj1 : j = N + 1 := by omega
      subst hj1
      rw [Pool.acquireN, Pool.acquireN_make N N le_rfl, Pool.acquire]
      simp

theorem c1_pool_exhaustion_witness :
    (∃ o, (Pool.acquireN (Pool.make 2) 1).acquire.1 = some o ∧
        o ∈ (Pool.acquireN (Pool.make 2) 1).allObjects) ∧
    ((Pool.acquireN (Pool.make 2) 2).acquire.1 = none) ∧
    ((Pool.acquireN (Pool.make 2) 3).allObjects.length = 2) :=
  ⟨(c1_pool_exhaustion 2).1 1 (by norm_num), (c1_pool_exhaustion 2).2.1,
   ((c1_pool_exhaustion 2).2.2 3 (by norm_num)).1⟩

/-- C2: after any sequence of acquire and release operations from
construction, the active and inactive sequences are disjoint, their union
is exactly the set of pooled objects, and the pool never holds more than
its capacity. -/
theorem c2_partition_invariant (N : Nat) (ops : List PoolOp) :
    (∀ x, ¬(x ∈ ((Pool.make N).runOps ops).activeObjects ∧
            x ∈ ((Pool.make N).runOps ops).inactiveObjects)) ∧
    (∀ x, x ∈ ((Pool.make N).runOps ops).allObjects ↔
          (x ∈ ((Pool.make N).runOps ops).activeObjects ∨
           x ∈ ((Pool.make N).runOps ops).inactiveObjects)) ∧
    ((Pool.make N).runOps ops).allObjects.length ≤ N := by
  obtain ⟨_, _, _, hDisj, hUnion, hFull, _⟩ :=
    poolInv_runOps (Pool.make N) ops (poolInv_make N)
  refine ⟨hDisj, hUnion, ?_⟩
  rw [hFull, runOps_maxSize, Pool.make_spec]

theorem c2_partition_invariant_witness :
    ¬((0:Nat) ∈ ((Pool.make 1).runOps [PoolOp.acq]).activeObjects ∧
      (0:Nat) ∈ ((Pool.make 1).runOps [PoolOp.acq]).inactiveObjects) :=
  (c2_partition_invariant 1 [PoolOp.acq]).1 0

/-- C7: from any pool state reachable from construction, a successful
acquire followed immediately by release of the returned object restores
the exact pre-acquire partition state, and the returned object was in the
inactive sequence. -/
theorem c7_acquire_release_roundtrip (N : Nat) (ops : List PoolOp) (p p2 : Pool)
    (obj : Nat) (hp : p = (Pool.make N).runOps ops)
    (hacq : p.acquire = (some obj, p2)) :
    p2.release obj = p ∧ obj ∈ p.inactiveObjects := by
  have hinv : PoolInv p := hp ▸ poolInv_runOps (Pool.make N) ops (poolInv_make N)
  obtain ⟨hAll, hAct, hIn, hDisj, hUnion, hFull, hFresh⟩ := hinv
  rw [Pool.acquire] at hacq
  cases hlast : p.inactiveObjects.getLast? with
  | none =>
      rw [hlast] at hacq
      have hnlt : ¬ p.allObjects.length < p.maxSize := by omega
      simp [hnlt] at hacq
  | some o =>
      rw [hlast] at hacq
      simp only [Prod.mk.injEq, Option.some.inj] at hacq
      obtain ⟨ho, hp2⟩ := hacq
      have ho' : o = obj := Option.some.inj ho
      subst ho'
      have hne : p.inactiveObjects ≠ [] := by
        intro h0; rw [h0] at hlast; simp at hlast
      have hobj : p.inactiveObjects.getLast hne = o := by
        have := List.getLast?_eq_getLast p.inactiveObjects hne
        rw [hlast] at this; exact (Option.some.inj this).symm
      have hsplit : p.inactiveObjects.dropLast ++ [o] = p.inactiveObjects := by
        rw [← hobj]; exact List.dropLast_append_getLast hne
      have hobjIn : o ∈ p.inactiveObjects := by rw [← hsplit]; simp
      have hobjAct : o ∉ p.activeObjects := fun hmem => hDisj o ⟨hmem, hobjIn⟩
      have hobjD : o ∉ p.inactiveObjects.dropLast := by
        have hInD : (p.inactiveObjects.dropLast ++ [o]).Nodup := by
          rw [hsplit]; exact hIn
        rw [List.nodup_append] at hInD
        intro hmemD
        exact hInD.2.2 hmemD (List.mem_singleton_self o)
      refine ⟨?_, hobjIn⟩
      rw [← hp2, Pool.release]
      simp only [List.mem_append, List.mem_singleton, or_true, if_true]
      have herase : (p.activeObjects ++ [o]).erase o = p.activeObjects := by
        rw [List.erase_append_right _ hobjAct, List.erase_cons_head, List.append_nil]
      simp only [herase, hobjD, if_false]
      simp only [hsplit]

theorem c7_acquire_release_roundtrip_witness :
    (Pool.mk [0] [0] [] 1 1).release 0 = Pool.make 1 ∧
    0 ∈ (Pool.make 1).inactiveObjects :=
  c7_acquire_release_roundtrip 1 [] (Pool.make 1) (Pool.mk [0] [0] [] 1 1) 0 rfl
    (by rw [Pool.make_spec]; rfl)

theorem update_eq_model (p : Particle) (dt : ℚ) :
    Particle.update p dt = some (updateModel p dt) := by
  by_cases hs : p.options.isStatic
  · simp [Particle.update, eulerUpdate, Particle.applyForce, hs, Vec.clone, Vec.add,
          Vec.multiply, Vec.staticDivide, Vec.create, Vec.divide, processArgs,
          Vec.index, Vec.lengthProp, updateModel, bind, Option.bind]
  · simp [Particle.update, eulerUpdate, Particle.applyForce, hs, Vec.clone, Vec.add,
          Vec.multiply, Vec.staticDivide, Vec.create, Vec.divide, processArgs,
          Vec.index, Vec.lengthProp, updateModel, bind, Option.bind]

theorem updateN_eq_model (p : Particle) (dt : ℚ) (n : Nat) :
    Particle.updateN p dt n = some (updateModelN p dt n) := by
  induction n with
  | zero => rfl
  | succ n ih =>
      rw [Particle.updateN, ih, Option.bind, update_eq_model, updateModelN]

theorem updateModel_fields (q : Particle) (dt : ℚ) :
    (updateModel q dt).options.lifespan = q.options.lifespan - dt ∧
    (updateModel q dt).active = (if q.options.lifespan - dt < 0 then false else q.active) ∧
    (updateModel q dt).hasCallback =
      (if q.options.lifespan - dt < 0 then false else q.hasCallback) ∧
    (updateModel q dt).releaseCount =
      (if q.options.lifespan - dt < 0 ∧ q.hasCallback = true
       then q.releaseCount + 1 else q.releaseCount) := by
  rw [updateModel]
  by_cases h : q.options.lifespan - dt < 0
  · by_cases hc : q.hasCallback <;> simp [h, hc, Particle.destroy]
  · simp [h]

theorem updateModel_no_callback (q : Particle) (dt : ℚ) (hc : q.hasCallback = false) :
    (updateModel q dt).releaseCount = q.releaseCount ∧
    (updateModel q dt).hasCallback = false ∧
    (updateModel q dt).options.lifespan = q.options.lifespan - dt ∧
    (q.options.lifespan - dt < 0 → (updateModel q dt).active = false) := by
  rw [updateModel]
  by_cases h : q.options.lifespan - dt < 0 <;> simp [h, Particle.destroy, hc]

/-- C6 counterexample: a particle with lifespan exactly 1.0, stepped twice
with dt = 0.5, is still active and not Dead (its lifespan is 0, and death
requires lifespan strictly below 0); its release callback has not fired. -/
theorem c6_two_updates_not_dead :
    Particle.updateN c6Particle (1/2) 2 = some (updateModelN c6Particle (1/2) 2) ∧
    (updateModelN c6Particle (1/2) 2).active = true ∧
    ¬((updateModelN c6Particle (1/2) 2).options.lifespan < 0) ∧
    (updateModelN c6Particle (1/2) 2).releaseCount = 0 := by
  refine ⟨updateN_eq_model c6Particle (1/2) 2, ?_, ?_, ?_⟩ <;>
    norm_num [updateModelN, updateModel, c6Particle, Particle.destroy, Vec.clone]

/-- C6 amended: for every active particle with lifespan 1.0 whose release
callback is set, two updates with dt = 0.5 leave it alive with lifespan
exactly 0; it becomes Dead on the third call — strictly after the second —
and from then on stays dead with the release callback having been invoked
exactly once over its whole lifetime. -/
theorem c6_death_on_third_update (p : Particle) (h1 : p.options.lifespan = 1)
    (h2 : p.active = true) (h3 : p.hasCallback = true) (h4 : p.releaseCount = 0) :
    (∃ q, Particle.updateN p (1/2) 2 = some q ∧ q.active = true ∧
       q.options.lifespan = 0 ∧ ¬(q.options.lifespan < 0) ∧ q.releaseCount = 0) ∧
    (∀ n, 3 ≤ n → ∃ q, Particle.updateN p (1/2) n = some q ∧
       q.active = false ∧ q.releaseCount = 1) := by
  have hN2 : updateModelN p (1/2) 2 = updateModel (updateModel p (1/2)) (1/2) := rfl
  have hN3 : updateModelN p (1/2) 3 =
      updateModel (updateModel (updateModel p (1/2)) (1/2)) (1/2) := rfl
  have q1 := updateModel_fields p (1/2)
  rw [h1, h2, h3, h4] at q1
  norm_num at q1
  obtain ⟨q1l, q1a, q1c, q1n⟩ := q1
  have q2 := updateModel_fields (updateModel p (1/2)) (1/2)
  rw [q1l, q1a, q1c, q1n] at q2
  norm_num at q2
  obtain ⟨q2l, q2a, q2c, q2n⟩ := q2
  have q3 := updateModel_fields (updateModel (updateModel p (1/2)) (1/2)) (1/2)
  rw [q2l, q2a, q2c, q2n] at q3
  norm_num at q3
  obtain ⟨q3l, q3a, q3c, q3n⟩ := q3
  constructor
  · refine ⟨updateModelN p (1/2) 2, updateN_eq_model p (1/2) 2, ?_, ?_, ?_, ?_⟩
    · rw [hN2]; exact q2a
    · rw [hN2]; exact q2l
    · rw [hN2, q2l]; norm_num
    · rw [hN2]; exact q2n
  · have stable : ∀ m, (updateModelN p (1/2) (3 + m)).active = false ∧
        (updateModelN p (1/2) (3 + m)).releaseCount = 1 ∧
        (updateModelN p (1/2) (3 + m)).hasCallback = false ∧
        (updateModelN p (1/2) (3 + m)).options.lifespan < 0 := by
      intro m
      induction m with
      | zero =>
          have h30 : updateModelN p (1/2) (3 + 0) = updateModelN p (1/2) 3 := rfl
          rw [h30, hN3]
          refine ⟨q3a, q3n, q3c, ?_⟩
          rw [q3l]; norm_num
      | succ m ih =>
          obtain ⟨ia, in1, ic, il⟩ := ih
          have hneg : (updateModelN p (1/2) (3 + m)).options.lifespan - 1/2 < 0 := by
            linarith
          obtain ⟨sc, shc, sl, sa⟩ :=
            updateModel_no_callback (updateModelN p (1/2) (3 + m)) (1/2) ic
          have hstep : updateModelN p (1/2) (3 + (m + 1)) =
              updateModel (updateModelN p (1/2) (3 + m)) (1/2) := by
            have h31 : 3 + (m + 1) = (3 + m) + 1 := by omega
            rw [h31, updateModelN]
          rw [hstep]
          exact ⟨sa hneg, by rw [sc, in1], shc, by rw [sl]; linarith⟩
    intro n hn
    obtain ⟨m, rfl⟩ : ∃ m, n = 3 + m := ⟨n - 3, by omega⟩
    obtain ⟨sa, sn, _, _⟩ := stable m
    exact ⟨updateModelN p (1/2) (3 + m), updateN_eq_model p (1/2) (3 + m), sa, sn⟩

theorem c6_death_on_third_update_witness :
    (∃ q, Particle.updateN c6Particle (1/2) 2 = some q ∧ q.active = true ∧
       q.options.lifespan = 0 ∧ ¬(q.options.lifespan < 0) ∧ q.releaseCount = 0) ∧
    (∀ n, 3 ≤ n → ∃ q, Particle.updateN c6Particle (1/2) n = some q ∧
       q.active = false ∧ q.releaseCount = 1) :=
  c6_death_on_third_update c6Particle rfl rfl rfl rfl

/-- C3: instance add/subtract with another Vector as argument do NOT act
componentwise — processArgs turns any Vector argument into (0, 0), so the
operation leaves the receiver unchanged ((1,2).add((3,4)) stays (1,2),
which differs from the claimed (4,6)); scalar broadcast works as
claimed. -/
theorem c3_vector_argument_arithmetic_bug :
    (Vec.mk 1 2).add [VArg.vec ⟨3, 4⟩] = some ⟨1, 2⟩ ∧
    (Vec.mk 1 2).subtract [VArg.vec ⟨3, 4⟩] = some ⟨1, 2⟩ ∧
    (Vec.mk 1 2).add [VArg.num 5] = some ⟨6, 7⟩ ∧
    (Vec.mk 1 2) ≠ ⟨1 + 3, 2 + 4⟩ := by
  refine ⟨?_, ?_, ?_, ?_⟩ <;>
    norm_num [Vec.add, Vec.subtract, processArgs, Vec.index, Vec.lengthProp, Vec.mk.injEq]

/-- C4: one Euler update on a non-static live particle with velocity (1,0)
leaves position, velocity and (zeroed) acceleration at (0,0), (1,0), (0,0):
position does not advance by the velocity and gravity never reaches the
acceleration, because every Vector-argument add/divide contributes (0,0);
the claimed new position (0,0)+(1,0) differs. -/
theorem c4_euler_update_bug :
    (Particle.update eulerParticle 1).map
        (fun q => (q.position, q.velocity, q.acceleration)) =
      some (⟨0, 0⟩, ⟨1, 0⟩, ⟨0, 0⟩) ∧
    (Vec.mk 0 0) ≠ ⟨0 + 1, 0 + 0⟩ := by
  constructor
  · rw [update_eq_model]
    norm_num [updateModel, eulerParticle, Particle.destroy, Vec.clone]
  · norm_num [Vec.mk.injEq]

/-- C5: on two overlapping equal-mass particles approaching head-on,
checkCollision never applies the elastic impulse: computing the relative
speed calls Vector#dot with a Vector argument, which under the __DEBUG__
flag set at startup throws InvalidArgumentError; the escaping state still
carries the original velocities (1,0) and (-1,0), not the claimed swapped
ones. -/
theorem c5_collision_impulse_bug :
    checkCollision 1 1 1 1 ⟨1, 0⟩ collisionState =
      Except.error { selfPosition := ⟨0, 0⟩, selfVelocity := ⟨1, 0⟩
                     otherPosition := ⟨1, 0⟩, otherVelocity := ⟨-1, 0⟩, temp := ⟨1, 0⟩ } ∧
    (Vec.mk 1 0) ≠ ⟨-1, 0⟩ := by
  constructor
  · norm_num [checkCollision, collisionState, Vec.copyFrom, Vec.set, Vec.subtract,
      Vec.add, Vec.multiply, Vec.normalize, Vec.magnitude, Vec.magnitudeSq, ratSqrt,
      Vec.dot, Vec.createFromArgsArray, processArgs, Vec.index, Vec.lengthProp,
      DEBUG, List.mapM, List.mapM.loop, bind, Option.bind]
  · norm_num [Vec.mk.injEq]

/-- C8: divide leaves any component whose divisor component is zero
unchanged and raises no error: whenever processArgs succeeds on the
divisor arguments, a zero divisor component keeps the corresponding
component; in particular divide([0,0]) and divide(0) return the vector
unchanged (and so does remainder(0)). -/
theorem c8_divide_zero_noop (v : Vec) :
    (∀ args d, processArgs args = some d →
      ((d.1 = 0 → (v.divide args).map Vec.x = some v.x) ∧
       (d.2 = 0 → (v.divide args).map Vec.y = some v.y))) ∧
    v.divide [VArg.arr [0, 0]] = some v ∧
    v.divide [VArg.num 0] = some v ∧
    v.remainder [VArg.num 0] = some v := by
  refine ⟨?_, ?_, ?_, ?_⟩
  · intro args d hargs
    constructor
    · intro h1; simp [Vec.divide, hargs, h1]
    · intro h2; simp [Vec.divide, hargs, h2]
  · simp [Vec.divide, processArgs]
  · simp [Vec.divide, processArgs]
  · simp [Vec.remainder, processArgs]

theorem c8_divide_zero_noop_witness :
    (Vec.mk 6 8).divide [VArg.num 0] = some ⟨6, 8⟩ :=
  (c8_divide_zero_noop ⟨6, 8⟩).2.2.1

/-- C9: for a particle array holding exactly one particle and a positive
smoothing radius h, calculateDensities sets that particle's density to
exactly mass times the Poly6 kernel at zero distance,
(4 / (pi * h^8)) * (h^2 - 0)^3 with pi the Math.PI double; nothing else is
accumulated. -/
theorem c9_single_particle_density (p : Particle) (h : ℚ) (hh : 0 < h) :
    calculateDensities [p] h =
      [{ p with options := { p.options with
           density := p.options.mass * (4 / (jsPI * h^8) * (h^2 - 0)^3) } }] := by
  rw [calculateDensities]
  have hk : ¬((0:ℚ) > h * h) := by nlinarith
  have hpi : jsPI ≠ 0 := by norm_num [jsPI]
  have hne : h ≠ 0 := ne_of_gt hh
  simp only [List.enum, setSmoothingRadius, poly6KernelSq, List.map, List.foldl,
    List.enumFrom, hk, if_false]
  congr 1
  congr 1
  congr 1
  field_simp
  ring

theorem c9_single_particle_density_witness :
    (0:ℚ) < 1 ∧
    calculateDensities [eulerParticle] 1 =
      [{ eulerParticle with options := { eulerParticle.options with
           density := eulerParticle.options.mass * (4 / (jsPI * 1^8) * (1^2 - 0)^3) } }] :=
  ⟨by norm_num, c9_single_particle_density eulerParticle 1 (by norm_num)⟩

theorem vecStore_read_write (s : VecStore) (r : Nat) (v : Vec) (h : r < s.cells.length) :
    (s.write r v).read r = v := by
  rw [VecStore.write, VecStore.read]
  simp [List.getD, List.getElem?_set_eq_of_lt v h]

/-- C10: Particle#init stores the position argument by reference (only
prevPosition is cloned into a fresh cell), and Emitter#addParticles passes
the emitter's single position vector to init on every spawn, so both
particles spawned here share the emitter's position object: writing
through one particle's position reference is observed through the
emitter's reference and the other particle's. -/
theorem c10_shared_position_object (st : VecStore) (e : HEmitter) (p q : HParticle)
    (v : Vec) (h : e.positionRef < st.cells.length) :
    ((HEmitter.addParticles st e p).2.positionRef = e.positionRef) ∧
    ((HEmitter.addParticles (HEmitter.addParticles st e p).1 e q).2.positionRef
        = e.positionRef) ∧
    ((HEmitter.addParticles st e p).2.prevPositionRef ≠ e.positionRef) ∧
    (((HEmitter.addParticles (HEmitter.addParticles st e p).1 e q).1.write
        (HEmitter.addParticles st e p).2.positionRef v).read e.positionRef = v) ∧
    (((HEmitter.addParticles (HEmitter.addParticles st e p).1 e q).1.write
        (HEmitter.addParticles st e p).2.positionRef v).read
        (HEmitter.addParticles (HEmitter.addParticles st e p).1 e q).2.positionRef
        = v) := by
  refine ⟨rfl, rfl, ?_, ?_, ?_⟩
  · simp only [HEmitter.addParticles, HParticle.init, VecStore.alloc]
    simp only [List.length_append, List.length_singleton]
    omega
  · apply vecStore_read_write
    simp only [HEmitter.addParticles, HParticle.init, VecStore.alloc]
    simp only [List.length_append, List.length_singleton]
    omega
  · apply vecStore_read_write
    simp only [HEmitter.addParticles, HParticle.init, VecStore.alloc]
    simp only [List.length_append, List.length_singleton]
    omega

theorem c10_shared_position_object_witness :
    ((HEmitter.addParticles wStore wEmitter wParticle).2.positionRef
        = wEmitter.positionRef) ∧
    ((HEmitter.addParticles (HEmitter.addParticles wStore wEmitter wParticle).1
        wEmitter wParticle).2.positionRef = wEmitter.positionRef) ∧
    ((HEmitter.addParticles wStore wEmitter wParticle).2.prevPositionRef
        ≠ wEmitter.positionRef) ∧
    (((HEmitter.addParticles (HEmitter.addParticles wStore wEmitter wParticle).1
        wEmitter wParticle).1.write
        (HEmitter.addParticles wStore wEmitter wParticle).2.positionRef
        ⟨9, 9⟩).read wEmitter.positionRef = ⟨9, 9⟩) ∧
    (((HEmitter.addParticles (HEmitter.addParticles wStore wEmitter wParticle).1
        wEmitter wParticle).1.write
        (HEmitter.addParticles wStore wEmitter wParticle).2.positionRef
        ⟨9, 9⟩).read
        (HEmitter.addParticles (HEmitter.addParticles wStore wEmitter wParticle).1
          wEmitter wParticle).2.positionRef = ⟨9, 9⟩) :=
  c10_shared_position_object wStore wEmitter wParticle wParticle ⟨9, 9⟩
    (by norm_num [wStore, wEmitter])
